import Mathlib

/-!
Verification development for the hstream reactive reconciliation engine
(`src/hstream/hstream.py`).

Shallow embedding conventions:
* A Python component record (an attribute dictionary) is an association list
  `List (String × String)`; attribute values are modelled as strings, which is
  the carrier the engine actually compares (`==` on stored values).
* The per-session `components` store (a Python `OrderedDict`) is an ordered
  association list `List (String × Record)`.
* The pending-refresh queue (`update_required`, a Python `set`) is a
  `Finset String`.
* A Python `KeyError` (or failed `assert`) is made explicit: outcome types
  carry an error constructor together with the state at the moment the
  exception escapes, so that "no mutation happened" is a provable equation.
-/

abbrev Record : Type := List (String × String)

abbrev Components : Type := List (String × Record)

/-- The keys of an ordered component mapping, in insertion order. -/
def keysOf (c : Components) : List String := c.map Prod.fst

/-- `listStartsWith hay needle`: `needle` is an initial segment of `hay`. -/
def listStartsWith : List Char → List Char → Bool
  | _, [] => true
  | [], _ :: _ => false
  | c :: cs, d :: ds => c == d && listStartsWith cs ds

/-- `listHasSub hay needle`: `needle` occurs contiguously inside `hay`
(Python's `needle in hay` on strings). -/
def listHasSub : List Char → List Char → Bool
  | [], needle => needle.isEmpty
  | c :: cs, needle => listStartsWith (c :: cs) needle || listHasSub cs needle

/-- Python's substring test `needle in hay`. -/
def strHasSub (hay needle : String) : Bool := listHasSub hay.data needle.data

/-- Modelled from the spec: the marker substring identifying internal
synthetic HTML-bookkeeping records (`HS_HTML_CONSTANT` is defined in
`hstag.py`, which is not part of the sources under verification; the spec
only says such records exist and are "not visitor-observable components").
Its exact text is irrelevant to every theorem below; a concrete value is
fixed so that definitions stay executable. -/
def HS_HTML_CONSTANT : String := "hs_html"

/-- The filter applied to both snapshots in `run_user_script` (lines
324-337): drop every record whose key contains `HS_HTML_CONSTANT`
(`HS_HTML_CONSTANT not in component[0]`). -/
def stripInternal (c : Components) : Components :=
  c.filter (fun component => !(strHasSub component.1 HS_HTML_CONSTANT))

/-- Python `dict.keys() == dict.keys()`: keys views compare as sets,
order-insensitively (line 339). -/
def keySetEq (b a : Components) : Bool :=
  (keysOf b).all (fun k => (keysOf a).contains k) &&
    (keysOf a).all (fun k => (keysOf b).contains k)

/-- `schedule_component_refresh` (lines 173-177): the stored
`update_required` set becomes its union with the singleton of the new name. -/
def schedule_component_refresh (component_name : String) (q : Finset String) :
    Finset String :=
  q ∪ {component_name}

/-- `clear_component_refresh_queue` (lines 179-186): with
`all_component=True` the set is reset to empty, otherwise the named
component is discarded (`set.discard`, a no-op when absent). -/
def clear_component_refresh_queue (component : Option String)
    (all_component : Bool) (q : Finset String) : Finset String :=
  if all_component then ∅
  else
    match component with
    | some c => q.erase c
    | none => q

/-- Outcome of the diff section of `run_user_script`: either it runs to
completion, or a `KeyError` escapes mid-loop; both carry the refresh queue
as stored at that moment (every `schedule_component_refresh` writes through
to the store immediately). -/
inductive DiffOutcome where
  | ok (q : Finset String)
  | keyError (q : Finset String)
deriving DecidableEq

/-- The refresh queue held in a `DiffOutcome`. -/
def DiffOutcome.queueOf : DiffOutcome → Finset String
  | .ok q => q
  | .keyError q => q

/-- The inner loop of `run_user_script` (lines 351-353) over the list of
attribute names to track: for each attribute, compare
`attr_before[attr]` with `attr_next[attr]` and schedule the component on
any difference; a missed lookup is a `KeyError`. -/
def track_changes (key_before : String) (attr_before attr_next : Record) :
    List String → Finset String → DiffOutcome
  | [], q => .ok q
  | attr :: rest, q =>
    match List.lookup attr attr_before, List.lookup attr attr_next with
    | some vb, some vn =>
      track_changes key_before attr_before attr_next rest
        (if vb == vn then q else schedule_component_refresh key_before q)
    | _, _ => .keyError q

/-- `component_attr_to_trackchanges` (lines 348-349): every attribute name
of the before-record except `current_value`. -/
def attrs_to_track (attr_before : Record) : List String :=
  (attr_before.map Prod.fst).filter (fun attr => !(["current_value"].contains attr))

/-- One iteration of the outer loop body for a key present in both
snapshots (lines 344-353, given `attr_next`). -/
def compare_component (key_before : String) (attr_before attr_next : Record)
    (q : Finset String) : DiffOutcome :=
  track_changes key_before attr_before attr_next (attrs_to_track attr_before) q

/-- The outer loop of the equal-key-set branch (lines 344-353): iterate the
before-snapshot in order, looking each key up in the proposed snapshot
(`proposed_components_state[key_before]`, a `KeyError` when absent). -/
def diff_components (proposed : Components) :
    List (String × Record) → Finset String → DiffOutcome
  | [], q => .ok q
  | (key_before, attr_before) :: rest, q =>
    match List.lookup key_before proposed with
    | none => .keyError q
    | some attr_next =>
      match compare_component key_before attr_before attr_next q with
      | .ok q2 => diff_components proposed rest q2
      | .keyError q2 => .keyError q2

/-- The reconciliation section of `run_user_script` (lines 321-353): strip
internal HTML-bookkeeping records from both snapshots, then either schedule
`_full_page` (key sets differ) or clear the stale `_full_page` sentinel and
compare attributes key by key. -/
def reconcile (before proposed : Components) (q : Finset String) : DiffOutcome :=
  let compoennts_before_user_run := stripInternal before
  let proposed_components_state := stripInternal proposed
  if !(keySetEq compoennts_before_user_run proposed_components_state) then
    .ok (schedule_component_refresh "_full_page" q)
  else
    diff_components proposed_components_state compoennts_before_user_run
      (clear_component_refresh_queue (some "_full_page") false q)

/-- Overwrite-or-append of one attribute on a record, the effect of Python's
`record["attr"] = value`: an existing binding keeps its position, a new one is
appended. -/
def set_attr (r : Record) (attr v : String) : Record :=
  if (r.map Prod.fst).contains attr then
    r.map (fun p => if p.1 = attr then (attr, v) else p)
  else r ++ [(attr, v)]

/-- `components[component_key]["current_value"] = component_value` once the
key is known to be present (line 262): only that record's `current_value`
binding changes; every key keeps its position. -/
def set_component_value (c : Components) (component_key component_value : String) :
    Components :=
  c.map (fun p =>
    if p.1 = component_key then (p.1, set_attr p.2 "current_value" component_value)
    else p)

/-- Python truthiness of `form_values.get(key, False)` /
`query_params.get(key, False)`: `False` when the parameter is absent, and an
empty string is also falsy. -/
def truthy : Option String → Bool
  | none => false
  | some s => !(s == "")

/-- Outcome of the `/value_changed/{component_key}` handler: success, the
failed `assert` of line 256 (MalformedValueChange), or the `KeyError` of
line 262 (UnknownComponentKey). Every constructor carries the stored
components, the refresh queue, and the process-wide
`_queue_user_script_rerun` flag as they stand when control leaves the
handler, so non-mutation is an equation. -/
inductive ValueChangedOutcome where
  | ok (components : Components) (q : Finset String) (rerun : Bool)
  | assertionError (components : Components) (q : Finset String) (rerun : Bool)
  | keyError (components : Components) (q : Finset String) (rerun : Bool)
deriving DecidableEq

/-- Components stored when the value-changed handler returns. -/
def ValueChangedOutcome.componentsOf : ValueChangedOutcome → Components
  | .ok c _ _ => c
  | .assertionError c _ _ => c
  | .keyError c _ _ => c

/-- Refresh queue stored when the value-changed handler returns. -/
def ValueChangedOutcome.queueOf : ValueChangedOutcome → Finset String
  | .ok _ q _ => q
  | .assertionError _ q _ => q
  | .keyError _ q _ => q

/-- Rerun flag when the value-changed handler returns. -/
def ValueChangedOutcome.rerunOf : ValueChangedOutcome → Bool
  | .ok _ _ r => r
  | .assertionError _ _ r => r
  | .keyError _ _ r => r

/-- `func_for_component_value_changed` (lines 238-273): read the stored
components, take the form value if truthy else the query value (asserting
one of them is truthy), write `current_value` on the record looked up by
key (a `KeyError` when absent), persist, and set
`_queue_user_script_rerun`. The refresh queue is never touched. -/
def func_for_component_value_changed (components : Components) (q : Finset String)
    (rerun : Bool) (component_key : String) (form_value query_value : Option String) :
    ValueChangedOutcome :=
  if !(truthy form_value || truthy query_value) then
    .assertionError components q rerun
  else
    let component_value :=
      if truthy form_value then form_value.getD "" else query_value.getD ""
    if (keysOf components).contains component_key then
      .ok (set_component_value components component_key component_value) q true
    else
      .keyError components q rerun

/-- Modelled from the spec: one script execution, abstracted as the ordered
list of component declarations the script registers before returning or
raising, plus whether it raises afterwards. The registration machinery
itself lives in `components.py`, which is not among the sources under
verification; §4.2 of the spec fixes its effect ("register ComponentRecords
into the session's components mapping as a side effect, overwriting any
prior record under the same key, but not clearing unrelated keys first"). -/
structure ScriptBehavior where
  decls : List (String × Record)
  raises : Bool
deriving DecidableEq

/-- Modelled from the spec: registering one declared component into the
session's mapping — overwrite in place under an existing key, append under a
new one. -/
def declare_component (c : Components) (key : String) (record : Record) : Components :=
  if (keysOf c).contains key then
    c.map (fun p => if p.1 = key then (key, record) else p)
  else c ++ [(key, record)]

/-- Modelled from the spec: the cumulative effect of a script run's
declarative calls on the stored components. -/
def registerComponents (decls : List (String × Record)) (c : Components) : Components :=
  decls.foldl (fun acc d => declare_component acc d.1 d.2) c

/-- `compile_user_code` (lines 275-306): clears `_queue_user_script_rerun`
first, then executes the (patched) user source; the script's declarations
are written through to the store as it runs. Returns the stored components
afterwards, whether the script raised, and the new flag. -/
def compile_user_code (sb : ScriptBehavior) (components : Components) :
    Components × Bool × Bool :=
  (registerComponents sb.decls components, sb.raises, false)

/-- Outcome of `run_user_script`: the script itself raised
(`exec` at line 304, diff never reached), the diff raised a `KeyError`, or
everything completed. Each constructor carries stored components, refresh
queue and rerun flag at exit. -/
inductive RunOutcome where
  | scriptError (components : Components) (q : Finset String) (rerun : Bool)
  | diffKeyError (components : Components) (q : Finset String) (rerun : Bool)
  | ok (components : Components) (q : Finset String) (rerun : Bool)
deriving DecidableEq

/-- Components stored when `run_user_script` finishes or its exception escapes. -/
def RunOutcome.componentsOf : RunOutcome → Components
  | .scriptError c _ _ => c
  | .diffKeyError c _ _ => c
  | .ok c _ _ => c

/-- Refresh queue when `run_user_script` finishes or its exception escapes. -/
def RunOutcome.queueOf : RunOutcome → Finset String
  | .scriptError _ q _ => q
  | .diffKeyError _ q _ => q
  | .ok _ q _ => q

/-- Rerun flag when `run_user_script` finishes or its exception escapes. -/
def RunOutcome.rerunOf : RunOutcome → Bool
  | .scriptError _ _ r => r
  | .diffKeyError _ _ r => r
  | .ok _ _ r => r

/-- `run_user_script` (lines 308-353): snapshot the stored components, run
the user code (its declarations write through), and reconcile the two
snapshots into the refresh queue. If the script raises, the exception
escapes before any diff work: the queue is exactly as before. -/
def run_user_script (sb : ScriptBehavior) (components : Components)
    (q : Finset String) (rerun : Bool) : RunOutcome :=
  let compoennts_before_user_run := components
  let res := compile_user_code sb components
  let proposed_components_state := res.1
  if res.2.1 then .scriptError proposed_components_state q res.2.2
  else
    match reconcile compoennts_before_user_run proposed_components_state q with
    | .ok q2 => .ok proposed_components_state q2 res.2.2
    | .keyError q2 => .diffKeyError proposed_components_state q2 res.2.2

/-- `get_app_db_path` (lines 124-154), with the three sources of a storage
path made explicit: the `builtins`-monkeypatched per-visitor path (set while
the user script executes), the request-scoped context attribute set by the
middleware from the visitor cookie, and — when both are absent — the shared
fallback `<user_directory>/hs_data/main.db` common to all visitors.
`Path` concatenation is modelled as string join with `/`. -/
def get_app_db_path (builtins_path : Option String) (context_path : Option String)
    (path_to_usesr_directory : String) : String :=
  match builtins_path with
  | some p => path_to_usesr_directory ++ "/hs_data/" ++ p
  | none =>
    match context_path with
    | some p => p
    | none => path_to_usesr_directory ++ "/hs_data/" ++ "main.db"

/-- One visitor's persisted state: the shelve db holding `components` and
`update_required`. -/
structure SessionData where
  components : Components
  q : Finset String
deriving DecidableEq

/-- Process-wide application state: the single
`_queue_user_script_rerun` attribute of the `Hyperstream` object, plus the
per-visitor stores keyed by visitor id. -/
structure AppState where
  queue_user_script_rerun : Bool
  sessions : List (String × SessionData)
deriving DecidableEq

/-- Load a visitor's store (a fresh empty shelve when none exists yet). -/
def getSession (st : AppState) (sid : String) : SessionData :=
  (List.lookup sid st.sessions).getD ⟨[], ∅⟩

/-- Persist a visitor's store. -/
def putSession (sessions : List (String × SessionData)) (sid : String)
    (sd : SessionData) : List (String × SessionData) :=
  (sid, sd) :: sessions.filter (fun p => !(p.1 == sid))

/-- The `/value_changed/{component_key}` route at app level: operates on the
requesting visitor's store; on success line 266 sets the process-wide
`_queue_user_script_rerun` flag. Returns the new app state and whether the
handler succeeded. -/
def handle_value_changed (st : AppState) (sid component_key : String)
    (form_value query_value : Option String) : AppState × Bool :=
  let sd := getSession st sid
  let out := func_for_component_value_changed sd.components sd.q
    st.queue_user_script_rerun component_key form_value query_value
  (⟨out.rerunOf, putSession st.sessions sid ⟨out.componentsOf, out.queueOf⟩⟩,
    match out with
    | .ok _ _ _ => true
    | _ => false)

/-- Write a run outcome back into app state (stored components and queue to
the visitor's shelve, the flag to the process-wide object). -/
def applyRun (st : AppState) (sid : String) (out : RunOutcome) : AppState :=
  ⟨out.rerunOf, putSession st.sessions sid ⟨out.componentsOf, out.queueOf⟩⟩

/-- `evaluate_user_code_middleware` (lines 85-115): on the root path, clear
the visitor's components and queue and run the user script; on any other
path run it only when `_queue_user_script_rerun` is set. Returns the new app
state and whether `run_user_script` was invoked for this request. -/
def evaluate_user_code_middleware (st : AppState) (sid : String) (is_root : Bool)
    (sb : ScriptBehavior) : AppState × Bool :=
  if is_root then
    (applyRun st sid (run_user_script sb []
      (clear_component_refresh_queue none true (getSession st sid).q)
      st.queue_user_script_rerun), true)
  else if st.queue_user_script_rerun then
    (applyRun st sid (run_user_script sb (getSession st sid).components
      (getSession st sid).q st.queue_user_script_rerun), true)
  else (st, false)

/-- A full root-route request (middleware lines 101-106 followed by the
`root` handler, whose line 203 clears the refresh queue once more, after the
script run). -/
def root_request (st : AppState) (sid : String) (sb : ScriptBehavior) : AppState :=
  let st2 := (evaluate_user_code_middleware st sid true sb).1
  ⟨st2.queue_user_script_rerun,
    putSession st2.sessions sid
      ⟨(getSession st2 sid).components,
        clear_component_refresh_queue none true (getSession st2 sid).q⟩⟩

/-- One tracked attribute differs between the two records (the test of
line 352 for one attribute name). -/
def diffAt (attr_before attr_next : Record) (attr : String) : Bool :=
  match List.lookup attr attr_before, List.lookup attr attr_next with
  | some vb, some vn => !(vb == vn)
  | _, _ => false

/-- Some attribute other than `current_value` differs between the
before-record and the next-record. -/
def record_changed (attr_before attr_next : Record) : Bool :=
  (attrs_to_track attr_before).any (diffAt attr_before attr_next)

/-- Every tracked attribute of the before-record can be looked up in the
next-record: the condition under which the inner loop cannot raise. -/
def comparison_total (attr_before attr_next : Record) : Bool :=
  (attrs_to_track attr_before).all (fun attr => (List.lookup attr attr_next).isSome)

/-- Every before-record has a corresponding next-record whose attribute set
covers its tracked attributes: the condition under which the whole diff
cannot raise. -/
def run_comparison_total (before proposed : Components) : Bool :=
  before.all (fun p =>
    match List.lookup p.1 proposed with
    | some attr_next => comparison_total p.2 attr_next
    | none => false)

/-- The before-items whose records changed, as decided against the proposed
snapshot. -/
def changedAt (proposed : Components) (p : String × Record) : Bool :=
  match List.lookup p.1 proposed with
  | some attr_next => record_changed p.2 attr_next
  | none => false

/-- The set of component keys the equal-key-set branch schedules. -/
def changed_keys (proposed : Components) (items : List (String × Record)) :
    Finset String :=
  ((items.filter (changedAt proposed)).map Prod.fst).toFinset

/-- The spec's first §3 invariant: every queued key other than the
`_full_page` sentinel is a key currently present in the stored components. -/
def RefreshInvariant (components : Components) (q : Finset String) : Prop :=
  ∀ k ∈ q, k ≠ "_full_page" → k ∈ keysOf components

instance (components : Components) (q : Finset String) :
    Decidable (RefreshInvariant components q) := by
  unfold RefreshInvariant
  infer_instance

/-- C1: when the (visitor-observable) key sets of the before and after
snapshots differ as sets, reconciliation enqueues exactly the `_full_page`
sentinel — the resulting queue is the old queue united with the singleton
sentinel, whatever the records contain (so no per-attribute comparison and
no individual component key is enqueued). -/
theorem reconcile_unequal_keysets_full_reload
    (before proposed : Components) (q : Finset String)
    (hb : stripInternal before = before)
    (ha : stripInternal proposed = proposed)
    (hk : keySetEq before proposed = false) :
    reconcile before proposed q = .ok (q ∪ {"_full_page"}) := by
  simp only [reconcile, hb, ha, hk, Bool.not_false, if_pos, schedule_component_refresh]

theorem reconcile_unequal_keysets_full_reload_witness :
    keySetEq [("a", [("label", "x")])] [] = false ∧
      reconcile [("a", [("label", "x")])] [] {"b"} = .ok ({"b"} ∪ {"_full_page"}) :=
  ⟨by decide,
    reconcile_unequal_keysets_full_reload [("a", [("label", "x")])] [] {"b"}
      (by decide) (by decide) (by decide)⟩

/-- C3: reconciliation only ever looks at the snapshots through
`stripInternal`, so two pairs of snapshots that agree after internal
synthetic bookkeeping records are removed reconcile identically: the
presence, absence, or change of internal records can never alter the
decision (neither full reload nor any component refresh). -/
theorem reconcile_ignores_internal_records
    (before before2 proposed proposed2 : Components) (q : Finset String)
    (hb : stripInternal before = stripInternal before2)
    (ha : stripInternal proposed = stripInternal proposed2) :
    reconcile before proposed q = reconcile before2 proposed2 q := by
  simp only [reconcile, hb, ha]

theorem reconcile_ignores_internal_records_witness :
    stripInternal [("hs_html_7", [("label", "x")]), ("a", [("label", "y")])]
        = stripInternal [("a", [("label", "y")])] ∧
      reconcile [("hs_html_7", [("label", "x")]), ("a", [("label", "y")])]
          [("a", [("label", "y")]), ("hs_html_9", [("label", "z")])] ∅
        = reconcile [("a", [("label", "y")])] [("a", [("label", "y")])] ∅ :=
  ⟨by decide,
    reconcile_ignores_internal_records
      [("hs_html_7", [("label", "x")]), ("a", [("label", "y")])]
      [("a", [("label", "y")])]
      [("a", [("label", "y")]), ("hs_html_9", [("label", "z")])]
      [("a", [("label", "y")])] ∅ (by decide) (by decide)⟩

/-- C4: enqueuing into the refresh queue is a set union, so enqueuing a key
(or the `_full_page` sentinel) that is already present leaves the queue's
contents unchanged. -/
theorem schedule_component_refresh_idempotent
    (q : Finset String) (component_name : String) (h : component_name ∈ q) :
    schedule_component_refresh component_name q = q :=
  Finset.union_eq_left.mpr (Finset.singleton_subset_iff.mpr h)

theorem schedule_component_refresh_idempotent_witness :
    "_full_page" ∈ ({"_full_page", "a"} : Finset String) ∧
      schedule_component_refresh "_full_page" {"_full_page", "a"}
        = {"_full_page", "a"} :=
  ⟨by decide,
    schedule_component_refresh_idempotent {"_full_page", "a"} "_full_page" (by decide)⟩

/-- C5: a value-change request carrying a value for a key that is not in the
stored components escapes with the `KeyError` of
`components[component_key]["current_value"] = ...` (the spec's
UnknownComponentKey), and the stored components, the refresh queue and the
rerun flag are exactly what they were. -/
theorem value_changed_unknown_key_no_mutation
    (components : Components) (q : Finset String) (rerun : Bool)
    (component_key : String) (form_value query_value : Option String)
    (hval : (truthy form_value || truthy query_value) = true)
    (hkey : (keysOf components).contains component_key = false) :
    func_for_component_value_changed components q rerun component_key
        form_value query_value
      = .keyError components q rerun := by
  have hkey2 : component_key ∉ keysOf components := by simpa using hkey
  simp [func_for_component_value_changed, hval, hkey2]

theorem value_changed_unknown_key_no_mutation_witness :
    ((keysOf [("a", [("label", "x")])]).contains "ghost" = false) ∧
      func_for_component_value_changed [("a", [("label", "x")])] {"a"} false
          "ghost" (some "7") none
        = .keyError [("a", [("label", "x")])] {"a"} false :=
  ⟨by decide,
    value_changed_unknown_key_no_mutation [("a", [("label", "x")])] {"a"} false
      "ghost" (some "7") none (by decide) (by decide)⟩

/-- C6: when neither the monkeypatched `builtins` path nor the
request-context path is available, `get_app_db_path` does not fail: it
silently returns the shared fallback `<user_directory>/hs_data/main.db`,
a storage location common to every such request (the spec requires an
IdentityResolutionFailure abort here instead). -/
theorem get_app_db_path_missing_identity_shared_fallback :
    get_app_db_path none none "/srv/app" = "/srv/app/hs_data/main.db" := rfl

/-- C7: if the user script raises, `run_user_script` propagates the error
before any diff work: the refresh queue is exactly the queue from before the
failed run (no partial diff commit), the stored components are exactly the
records the script had registered over the prior state (still a well-formed
mapping), and the rerun flag has been cleared by `compile_user_code`. -/
theorem run_user_script_error_preserves_queue
    (sb : ScriptBehavior) (components : Components) (q : Finset String)
    (rerun : Bool) (hr : sb.raises = true) :
    run_user_script sb components q rerun
      = .scriptError (registerComponents sb.decls components) q false := by
  simp [run_user_script, compile_user_code, hr]

theorem run_user_script_error_preserves_queue_witness :
    (ScriptBehavior.mk [("a", [("label", "x")])] true).raises = true ∧
      run_user_script (ScriptBehavior.mk [("a", [("label", "x")])] true)
          [("b", [("label", "y")])] {"b"} false
        = .scriptError
            (registerComponents [("a", [("label", "x")])] [("b", [("label", "y")])])
            {"b"} false :=
  ⟨rfl,
    run_user_script_error_preserves_queue
      (ScriptBehavior.mk [("a", [("label", "x")])] true)
      [("b", [("label", "y")])] {"b"} false rfl⟩

theorem lookup_isSome_of_mem_keys (attr : String) :
    ∀ r : Record, attr ∈ r.map Prod.fst → ∃ v, List.lookup attr r = some v
  | [], h => absurd h (by simp)
  | (a, b) :: t, h => by
    by_cases ha : attr = a
    · exact ⟨b, by simp [List.lookup, ha]⟩
    · have h2 : attr = a ∨ attr ∈ t.map Prod.fst := by
        simpa only [List.map_cons, List.mem_cons] using h
      have ht : attr ∈ t.map Prod.fst := h2.resolve_left ha
      obtain ⟨v, hv⟩ := lookup_isSome_of_mem_keys attr t ht
      have hba : (attr == a) = false := by simp [ha]
      exact ⟨v, by simp [List.lookup, hba, hv]⟩

theorem schedule_component_refresh_self (component_name : String) (q : Finset String) :
    schedule_component_refresh component_name
        (schedule_component_refresh component_name q)
      = schedule_component_refresh component_name q := by
  simp [schedule_component_refresh, Finset.union_assoc]

theorem track_changes_total_ok (key_before : String) (attr_before attr_next : Record) :
    ∀ (l : List String) (q : Finset String),
      (∀ attr ∈ l, attr ∈ attr_before.map Prod.fst) →
      (∀ attr ∈ l, (List.lookup attr attr_next).isSome = true) →
      track_changes key_before attr_before attr_next l q
        = .ok (if l.any (diffAt attr_before attr_next) then
            schedule_component_refresh key_before q else q)
  | [], q, _, _ => by simp [track_changes]
  | attr :: rest, q, hb, hn => by
    obtain ⟨vb, hvb⟩ := lookup_isSome_of_mem_keys attr attr_before (hb attr (by simp))
    obtain ⟨vn, hvn⟩ := Option.isSome_iff_exists.mp (hn attr (by simp))
    have hrest1 : ∀ a ∈ rest, a ∈ attr_before.map Prod.fst :=
      fun a ha => hb a (by simp [ha])
    have hrest2 : ∀ a ∈ rest, (List.lookup a attr_next).isSome = true :=
      fun a ha => hn a (by simp [ha])
    have hattr : diffAt attr_before attr_next attr = !(vb == vn) := by
      simp [diffAt, hvb, hvn]
    by_cases hd : vb = vn
    · have ih := track_changes_total_ok key_before attr_before attr_next rest q
        hrest1 hrest2
      simp [track_changes, hvb, hvn, hd, ih, List.any_cons, hattr]
    · have ih := track_changes_total_ok key_before attr_before attr_next rest
        (schedule_component_refresh key_before q) hrest1 hrest2
      have hbd : (vb == vn) = false := by simp [hd]
      simp only [track_changes, hvb, hvn, hbd, Bool.false_eq_true, if_false, ih,
        List.any_cons, hattr, Bool.not_false, Bool.true_or, if_true]
      simp [schedule_component_refresh_self]

theorem compare_component_total_ok (key_before : String)
    (attr_before attr_next : Record) (q : Finset String)
    (h : comparison_total attr_before attr_next = true) :
    compare_component key_before attr_before attr_next q
      = .ok (if record_changed attr_before attr_next then
          schedule_component_refresh key_before q else q) := by
  refine track_changes_total_ok key_before attr_before attr_next
    (attrs_to_track attr_before) q (fun a ha => ?_) (fun a ha => ?_)
  · exact List.mem_of_mem_filter ha
  · exact List.all_eq_true.mp h a ha

theorem diff_components_total_ok (proposed : Components) :
    ∀ (items : List (String × Record)) (q : Finset String),
      (∀ p ∈ items, ∃ ra, List.lookup p.1 proposed = some ra
        ∧ comparison_total p.2 ra = true) →
      diff_components proposed items q = .ok (q ∪ changed_keys proposed items)
  | [], q, _ => by simp [diff_components, changed_keys]
  | (key_before, attr_before) :: rest, q, h => by
    obtain ⟨ra, hra, htot⟩ := h (key_before, attr_before) (by simp)
    have hrest : ∀ p ∈ rest, ∃ r2, List.lookup p.1 proposed = some r2
        ∧ comparison_total p.2 r2 = true :=
      fun p hp => h p (by simp [hp])
    have hcc := compare_component_total_ok key_before attr_before ra q htot
    have hch : changedAt proposed (key_before, attr_before)
        = record_changed attr_before ra := by
      simp [changedAt, hra]
    by_cases hc : record_changed attr_before ra = true
    · have ih := diff_components_total_ok proposed rest
        (schedule_component_refresh key_before q) hrest
      simp only [diff_components, hra, hcc, hc, if_true, ih]
      have : changed_keys proposed ((key_before, attr_before) :: rest)
          = insert key_before (changed_keys proposed rest) := by
        simp [changed_keys, List.filter_cons, hch, hc]
      rw [this, Finset.insert_eq, schedule_component_refresh]
      rw [Finset.union_assoc]
    · have ih := diff_components_total_ok proposed rest q hrest
      simp only [Bool.not_eq_true] at hc
      simp only [diff_components, hra, hcc, hc, Bool.false_eq_true, if_false, ih]
      have : changed_keys proposed ((key_before, attr_before) :: rest)
          = changed_keys proposed rest := by
        simp [changed_keys, List.filter_cons, hch, hc]
      rw [this]

theorem run_comparison_total_spec (before proposed : Components)
    (h : run_comparison_total before proposed = true) :
    ∀ p ∈ before, ∃ ra, List.lookup p.1 proposed = some ra
      ∧ comparison_total p.2 ra = true := by
  intro p hp
  have hx := List.all_eq_true.mp h p hp
  cases hra : List.lookup p.1 proposed with
  | none => rw [hra] at hx; exact absurd hx (by simp)
  | some ra =>
    rw [hra] at hx
    exact ⟨ra, rfl, hx⟩

theorem changed_keys_subset_keys (proposed : Components)
    (items : List (String × Record)) (x : String)
    (hx : x ∈ changed_keys proposed items) : x ∈ items.map Prod.fst := by
  have hx2 := List.mem_toFinset.mp hx
  obtain ⟨p, hp, hpx⟩ := List.mem_map.mp hx2
  exact List.mem_map.mpr ⟨p, List.mem_of_mem_filter hp, hpx⟩

theorem reconcile_equal_keysets_eq (before proposed : Components) (q : Finset String)
    (hb : stripInternal before = before)
    (ha : stripInternal proposed = proposed)
    (hk : keySetEq before proposed = true) :
    reconcile before proposed q
      = diff_components proposed before (q.erase "_full_page") := by
  simp only [reconcile, hb, ha, hk, Bool.not_true, Bool.false_eq_true, if_false,
    clear_component_refresh_queue]

/-- C2 (counterexample): with equal key sets, the resulting decision CAN
contain `_full_page` — nothing stops a script from declaring a component
whose key is literally `_full_page`, and an attribute change on that
component re-enqueues the sentinel that the structural check had just
cleared. -/
theorem reconcile_equal_keysets_sentinel_counterexample :
    keySetEq [("_full_page", [("label", "x")])] [("_full_page", [("label", "y")])]
        = true
      ∧ reconcile [("_full_page", [("label", "x")])]
          [("_full_page", [("label", "y")])] ∅
        = .ok {"_full_page"} := by decide

/-- C2 (amended): for snapshots with equal (visitor-observable) key sets on
which the per-attribute comparison completes, reconciliation compares every
attribute of each before-record except `current_value`, the resulting queue
is exactly the old queue with the stale `_full_page` sentinel cleared united
with the set of keys some compared attribute of which differs, and —
provided no component key is literally `_full_page` — the decision never
contains `_full_page`; in particular when no compared attribute of any
record differs (e.g. a `current_value`-only change) nothing is enqueued. -/
theorem reconcile_equal_keysets_attribute_diff
    (before proposed : Components) (q : Finset String)
    (hb : stripInternal before = before)
    (ha : stripInternal proposed = proposed)
    (hk : keySetEq before proposed = true)
    (ht : run_comparison_total before proposed = true)
    (hfp : "_full_page" ∉ keysOf before) :
    reconcile before proposed q
        = .ok (q.erase "_full_page" ∪ changed_keys proposed before)
      ∧ "_full_page" ∉ q.erase "_full_page" ∪ changed_keys proposed before
      ∧ ((∀ p ∈ before, ∀ ra, List.lookup p.1 proposed = some ra →
            record_changed p.2 ra = false) →
          changed_keys proposed before = ∅) := by
  refine ⟨?_, ?_, ?_⟩
  · rw [reconcile_equal_keysets_eq before proposed q hb ha hk]
    exact diff_components_total_ok proposed before (q.erase "_full_page")
      (run_comparison_total_spec before proposed ht)
  · intro hmem
    rcases Finset.mem_union.mp hmem with h1 | h1
    · exact Finset.not_mem_erase _ _ h1
    · exact hfp (changed_keys_subset_keys proposed before _ h1)
  · intro hnone
    have : before.filter (changedAt proposed) = [] := by
      rw [List.filter_eq_nil_iff]
      intro p hp
      obtain ⟨ra, hra, _⟩ := run_comparison_total_spec before proposed ht p hp
      simp [changedAt, hra, hnone p hp ra hra]
    simp [changed_keys, this]

theorem reconcile_equal_keysets_attribute_diff_witness :
    reconcile
        [("a", [("label", "x"), ("current_value", "1")]),
          ("b", [("label", "y")])]
        [("a", [("label", "x"), ("current_value", "2")]),
          ("b", [("label", "z")])]
        {"_full_page"}
        = .ok (({"_full_page"} : Finset String).erase "_full_page"
            ∪ changed_keys
                [("a", [("label", "x"), ("current_value", "2")]),
                  ("b", [("label", "z")])]
                [("a", [("label", "x"), ("current_value", "1")]),
                  ("b", [("label", "y")])])
      ∧ "_full_page" ∉ ({"_full_page"} : Finset String).erase "_full_page"
          ∪ changed_keys
              [("a", [("label", "x"), ("current_value", "2")]),
                ("b", [("label", "z")])]
              [("a", [("label", "x"), ("current_value", "1")]),
                ("b", [("label", "y")])]
      ∧ ((∀ p ∈ [("a", [("label", "x"), ("current_value", "1")]),
            ("b", [("label", "y")])], ∀ ra,
            List.lookup p.1
                [("a", [("label", "x"), ("current_value", "2")]),
                  ("b", [("label", "z")])]
              = some ra →
            record_changed p.2 ra = false) →
          changed_keys
              [("a", [("label", "x"), ("current_value", "2")]),
                ("b", [("label", "z")])]
              [("a", [("label", "x"), ("current_value", "1")]),
                ("b", [("label", "y")])]
            = ∅) :=
  reconcile_equal_keysets_attribute_diff
    [("a", [("label", "x"), ("current_value", "1")]), ("b", [("label", "y")])]
    [("a", [("label", "x"), ("current_value", "2")]), ("b", [("label", "z")])]
    {"_full_page"} (by decide) (by decide) (by decide) (by decide) (by decide)

theorem track_changes_ok_total (key_before : String) (attr_before attr_next : Record) :
    ∀ (l : List String) (q q2 : Finset String),
      track_changes key_before attr_before attr_next l q = .ok q2 →
      ∀ attr ∈ l, (List.lookup attr attr_next).isSome = true
  | [], _, _, _, attr, ha => absurd ha (by simp)
  | attr0 :: rest, q, q2, h, attr, ha => by
    rcases List.mem_cons.mp ha with rfl | hrest
    · cases hvb : List.lookup attr attr_before with
      | none => rw [track_changes, hvb] at h; exact absurd h (by simp)
      | some vb =>
        cases hvn : List.lookup attr attr_next with
        | none => rw [track_changes, hvb, hvn] at h; exact absurd h (by simp)
        | some vn => simp [hvn]
    · cases hvb : List.lookup attr0 attr_before with
      | none => rw [track_changes, hvb] at h; exact absurd h (by simp)
      | some vb =>
        cases hvn : List.lookup attr0 attr_next with
        | none => rw [track_changes, hvb, hvn] at h; exact absurd h (by simp)
        | some vn =>
          rw [track_changes, hvb, hvn] at h
          exact track_changes_ok_total key_before attr_before attr_next rest _ q2
            h attr hrest

theorem diff_components_ok_total (proposed : Components) :
    ∀ (items : List (String × Record)) (q q2 : Finset String),
      diff_components proposed items q = .ok q2 →
      ∀ p ∈ items, ∃ ra, List.lookup p.1 proposed = some ra
        ∧ comparison_total p.2 ra = true
  | [], _, _, _, p, hp => absurd hp (by simp)
  | (key_before, attr_before) :: rest, q, q2, h, p, hp => by
    cases hra : List.lookup key_before proposed with
    | none => rw [diff_components, hra] at h; exact absurd h (by simp)
    | some ra =>
      simp only [diff_components, hra] at h
      cases hcc : compare_component key_before attr_before ra q with
      | keyError q3 => rw [hcc] at h; exact absurd h (by simp)
      | ok q3 =>
        rw [hcc] at h
        rcases List.mem_cons.mp hp with rfl | hrest
        · refine ⟨ra, hra, List.all_eq_true.mpr fun attr hattr => ?_⟩
          exact track_changes_ok_total key_before attr_before ra
            (attrs_to_track attr_before) q q3 hcc attr hattr
        · exact diff_components_ok_total proposed rest q3 q2 h p hrest

/-- C9: the per-attribute comparison is partial. On a concrete pair with
equal key sets where the after-record lacks a compared attribute of the
before-record, reconciliation escapes with a `KeyError` instead of
returning a decision; and in general, for equal-key-set snapshots it
completes exactly when every after-record's attribute set covers its
before-record's compared (non-`current_value`) attributes. -/
theorem reconcile_partial_missing_attr :
    run_comparison_total [("a", [("label", "x"), ("color", "red")])]
        [("a", [("label", "x")])] = false
      ∧ reconcile [("a", [("label", "x"), ("color", "red")])]
          [("a", [("label", "x")])] ∅
        = .keyError ∅
      ∧ (∀ (before proposed : Components) (q : Finset String),
          stripInternal before = before →
          stripInternal proposed = proposed →
          keySetEq before proposed = true →
          ((∃ q2, reconcile before proposed q = .ok q2) ↔
            run_comparison_total before proposed = true)) := by
  refine ⟨by decide, by decide, fun before proposed q hb ha hk => ⟨?_, ?_⟩⟩
  · rintro ⟨q2, hq2⟩
    rw [reconcile_equal_keysets_eq before proposed q hb ha hk] at hq2
    refine List.all_eq_true.mpr fun p hp => ?_
    obtain ⟨ra, hra, htot⟩ :=
      diff_components_ok_total proposed before _ q2 hq2 p hp
    rw [hra]
    exact htot
  · intro ht
    refine ⟨q.erase "_full_page" ∪ changed_keys proposed before, ?_⟩
    rw [reconcile_equal_keysets_eq before proposed q hb ha hk]
    exact diff_components_total_ok proposed before _
      (run_comparison_total_spec before proposed ht)

theorem reconcile_partial_missing_attr_witness :
    (∃ q2, reconcile [("a", [("label", "x")])] [("a", [("label", "x")])] ∅
        = .ok q2) ↔
      run_comparison_total [("a", [("label", "x")])] [("a", [("label", "x")])]
        = true :=
  reconcile_partial_missing_attr.2.2 [("a", [("label", "x")])]
    [("a", [("label", "x")])] ∅ (by decide) (by decide) (by decide)

theorem track_changes_queue_bound (key_before : String) (attr_before attr_next : Record) :
    ∀ (l : List String) (q : Finset String) (x : String),
      x ∈ (track_changes key_before attr_before attr_next l q).queueOf →
      x ∈ q ∨ x = key_before
  | [], q, x, hx => Or.inl (by simpa [track_changes, DiffOutcome.queueOf] using hx)
  | attr :: rest, q, x, hx => by
    cases hvb : List.lookup attr attr_before with
    | none =>
      rw [track_changes, hvb] at hx
      exact Or.inl (by simpa [DiffOutcome.queueOf] using hx)
    | some vb =>
      cases hvn : List.lookup attr attr_next with
      | none =>
        rw [track_changes, hvb, hvn] at hx
        exact Or.inl (by simpa [DiffOutcome.queueOf] using hx)
      | some vn =>
        simp only [track_changes, hvb, hvn] at hx
        rcases track_changes_queue_bound key_before attr_before attr_next rest _ x hx
          with h1 | h1
        · by_cases hd : (vb == vn) = true
          · rw [if_pos hd] at h1
            exact Or.inl h1
          · rw [if_neg hd] at h1
            rcases Finset.mem_union.mp h1 with h2 | h2
            · exact Or.inl h2
            · exact Or.inr (Finset.mem_singleton.mp h2)
        · exact Or.inr h1

theorem diff_components_queue_bound (proposed : Components) :
    ∀ (items : List (String × Record)) (q : Finset String) (x : String),
      x ∈ (diff_components proposed items q).queueOf →
      x ∈ q ∨ x ∈ items.map Prod.fst
  | [], q, x, hx => Or.inl (by simpa [diff_components, DiffOutcome.queueOf] using hx)
  | (key_before, attr_before) :: rest, q, x, hx => by
    cases hra : List.lookup key_before proposed with
    | none =>
      rw [diff_components, hra] at hx
      exact Or.inl (by simpa [DiffOutcome.queueOf] using hx)
    | some ra =>
      simp only [diff_components, hra] at hx
      cases hcc : compare_component key_before attr_before ra q with
      | keyError q3 =>
        rw [hcc] at hx
        have hx3 : x ∈ q3 := by simpa [DiffOutcome.queueOf] using hx
        have htr : track_changes key_before attr_before ra
            (attrs_to_track attr_before) q = .keyError q3 := hcc
        have := track_changes_queue_bound key_before attr_before ra
          (attrs_to_track attr_before) q x (by rw [htr]; exact hx3)
        rcases this with h1 | h1
        · exact Or.inl h1
        · exact Or.inr (by simp [h1])
      | ok q3 =>
        rw [hcc] at hx
        have htr : track_changes key_before attr_before ra
            (attrs_to_track attr_before) q = .ok q3 := hcc
        rcases diff_components_queue_bound proposed rest q3 x hx with h1 | h1
        · have := track_changes_queue_bound key_before attr_before ra
            (attrs_to_track attr_before) q x (by rw [htr]; exact h1)
          rcases this with h2 | h2
          · exact Or.inl h2
          · exact Or.inr (by simp [h2])
        · exact Or.inr (by simp [h1])

theorem keysOf_stripInternal_subset (c : Components) (x : String)
    (hx : x ∈ keysOf (stripInternal c)) : x ∈ keysOf c := by
  obtain ⟨p, hp, hpx⟩ := List.mem_map.mp hx
  exact List.mem_map.mpr ⟨p, List.mem_of_mem_filter hp, hpx⟩

theorem reconcile_queue_bound (before proposed : Components) (q : Finset String)
    (x : String) (hx : x ∈ (reconcile before proposed q).queueOf) :
    x ∈ q ∨ x = "_full_page" ∨ x ∈ keysOf before := by
  by_cases hk : keySetEq (stripInternal before) (stripInternal proposed) = true
  · have hre : reconcile before proposed q
        = diff_components (stripInternal proposed) (stripInternal before)
            (q.erase "_full_page") := by
      simp only [reconcile, hk, Bool.not_true, Bool.false_eq_true, if_false,
        clear_component_refresh_queue]
    rw [hre] at hx
    rcases diff_components_queue_bound (stripInternal proposed)
        (stripInternal before) (q.erase "_full_page") x hx with h1 | h1
    · exact Or.inl (Finset.mem_of_mem_erase h1)
    · exact Or.inr (Or.inr (keysOf_stripInternal_subset before x h1))
  · have hk2 : keySetEq (stripInternal before) (stripInternal proposed) = false :=
      Bool.eq_false_iff.mpr hk
    have hre : reconcile before proposed q
        = .ok (schedule_component_refresh "_full_page" q) := by
      simp only [reconcile, hk2, Bool.not_false, if_true]
    rw [hre] at hx
    have hx2 : x ∈ q ∪ {"_full_page"} := by
      simpa [DiffOutcome.queueOf, schedule_component_refresh] using hx
    rcases Finset.mem_union.mp hx2 with h1 | h1
    · exact Or.inl h1
    · exact Or.inr (Or.inl (Finset.mem_singleton.mp h1))

theorem keysOf_declare_component (c : Components) (key : String) (record : Record)
    (x : String) (hx : x ∈ keysOf c) : x ∈ keysOf (declare_component c key record) := by
  unfold declare_component
  by_cases hc : (keysOf c).contains key = true
  · rw [if_pos hc]
    have : keysOf (c.map fun p => if p.1 = key then (key, record) else p) = keysOf c := by
      unfold keysOf
      rw [List.map_map]
      refine List.map_congr_left fun p _ => ?_
      by_cases hp : p.1 = key
      · simp [hp]
      · simp [hp]
    rw [this]
    exact hx
  · rw [if_neg hc]
    unfold keysOf
    rw [List.map_append]
    exact List.mem_append_left _ hx

theorem keysOf_registerComponents :
    ∀ (decls : List (String × Record)) (c : Components) (x : String),
      x ∈ keysOf c → x ∈ keysOf (registerComponents decls c)
  | [], _, _, hx => hx
  | d :: ds, c, x, hx =>
    keysOf_registerComponents ds (declare_component c d.1 d.2) x
      (keysOf_declare_component c d.1 d.2 x hx)

theorem keysOf_set_component_value (c : Components) (key v : String) :
    keysOf (set_component_value c key v) = keysOf c := by
  unfold set_component_value keysOf
  rw [List.map_map]
  refine List.map_congr_left fun p _ => ?_
  by_cases hp : p.1 = key
  · simp [hp]
  · simp [hp]

theorem run_user_script_preserves_invariant (sb : ScriptBehavior) (c : Components)
    (q : Finset String) (r : Bool) (hinv : RefreshInvariant c q) :
    RefreshInvariant (run_user_script sb c q r).componentsOf
      (run_user_script sb c q r).queueOf := by
  unfold run_user_script
  cases hr : sb.raises with
  | true =>
    simp only [compile_user_code, hr, if_true]
    intro k hk hne
    exact keysOf_registerComponents sb.decls c k (hinv k hk hne)
  | false =>
    simp only [compile_user_code, hr, Bool.false_eq_true, if_false]
    cases hrec : reconcile c (registerComponents sb.decls c) q with
    | ok q2 =>
      simp only [RunOutcome.componentsOf, RunOutcome.queueOf]
      intro k hk hne
      have hb := reconcile_queue_bound c (registerComponents sb.decls c) q k
        (by rw [hrec]; exact hk)
      rcases hb with h1 | h1 | h1
      · exact keysOf_registerComponents sb.decls c k (hinv k h1 hne)
      · exact absurd h1 hne
      · exact keysOf_registerComponents sb.decls c k h1
    | keyError q2 =>
      simp only [RunOutcome.componentsOf, RunOutcome.queueOf]
      intro k hk hne
      have hb := reconcile_queue_bound c (registerComponents sb.decls c) q k
        (by rw [hrec]; exact hk)
      rcases hb with h1 | h1 | h1
      · exact keysOf_registerComponents sb.decls c k (hinv k h1 hne)
      · exact absurd h1 hne
      · exact keysOf_registerComponents sb.decls c k h1

/-- C8 (counterexample): raw enqueue with an arbitrary key does NOT preserve
the invariant — scheduling a key that is in no stored component leaves a
dangling queue entry. -/
theorem refresh_invariant_not_preserved_by_enqueue :
    RefreshInvariant [] ∅
      ∧ ¬ RefreshInvariant [] (schedule_component_refresh "ghost" ∅) := by decide

/-- C8 (amended): the invariant "every queued key other than `_full_page` is
a current component key" is preserved by a script run with reconciliation,
by a value change (also on its error paths), by dequeue of one key, by
dequeue-all, and by a full root-route request; enqueue preserves it exactly
when guarded — the enqueued key is the `_full_page` sentinel or a current
component key, which is the only way the engine itself calls it. -/
theorem core_operations_preserve_refresh_invariant :
    (∀ (sb : ScriptBehavior) (c : Components) (q : Finset String) (r : Bool),
        RefreshInvariant c q →
        RefreshInvariant (run_user_script sb c q r).componentsOf
          (run_user_script sb c q r).queueOf)
      ∧ (∀ (c : Components) (q : Finset String) (r : Bool) (key : String)
            (fv qv : Option String),
          RefreshInvariant c q →
          RefreshInvariant
            (func_for_component_value_changed c q r key fv qv).componentsOf
            (func_for_component_value_changed c q r key fv qv).queueOf)
      ∧ (∀ (c : Components) (q : Finset String) (k : String),
          RefreshInvariant c q → (k = "_full_page" ∨ k ∈ keysOf c) →
          RefreshInvariant c (schedule_component_refresh k q))
      ∧ (∀ (c : Components) (q : Finset String) (k : String),
          RefreshInvariant c q →
          RefreshInvariant c (clear_component_refresh_queue (some k) false q))
      ∧ (∀ (c : Components) (q : Finset String),
          RefreshInvariant c (clear_component_refresh_queue none true q))
      ∧ (∀ (st : AppState) (sid : String) (sb : ScriptBehavior),
          RefreshInvariant (getSession (root_request st sid sb) sid).components
            (getSession (root_request st sid sb) sid).q) := by
  refine ⟨run_user_script_preserves_invariant, ?_, ?_, ?_, ?_, ?_⟩
  · intro c q r key fv qv hinv
    have hq : (func_for_component_value_changed c q r key fv qv).queueOf = q := by
      unfold func_for_component_value_changed
      dsimp only
      split
      · rfl
      · split
        · rfl
        · rfl
    have hkeys : keysOf (func_for_component_value_changed c q r key fv qv).componentsOf
        = keysOf c := by
      unfold func_for_component_value_changed
      dsimp only
      split
      · rfl
      · split
        · exact keysOf_set_component_value c key _
        · rfl
    intro k hk hne
    rw [hq] at hk
    rw [hkeys]
    exact hinv k hk hne
  · intro c q k hinv hk x hx hne
    rcases Finset.mem_union.mp hx with h1 | h1
    · exact hinv x h1 hne
    · rcases hk with h2 | h2
      · exact absurd (Finset.mem_singleton.mp h1 ▸ h2) hne
      · exact Finset.mem_singleton.mp h1 ▸ h2
  · intro c q k hinv x hx hne
    exact hinv x (Finset.mem_of_mem_erase hx) hne
  · intro c q x hx _
    exact absurd hx (by simp [clear_component_refresh_queue])
  · intro st sid sb x hx _
    have : (getSession (root_request st sid sb) sid).q = ∅ := by
      simp [root_request, getSession, putSession, List.lookup,
        clear_component_refresh_queue]
    rw [this] at hx
    exact absurd hx (by simp)

theorem core_operations_preserve_refresh_invariant_witness :
    RefreshInvariant [("a", [("label", "x")])]
        (schedule_component_refresh "a" ({"_full_page"} : Finset String)) :=
  core_operations_preserve_refresh_invariant.2.2.1 [("a", [("label", "x")])]
    {"_full_page"} "a" (by decide) (Or.inr (by decide))

theorem run_user_script_clears_rerun (sb : ScriptBehavior) (c : Components)
    (q : Finset String) (r : Bool) :
    (run_user_script sb c q r).rerunOf = false := by
  unfold run_user_script compile_user_code
  cases sb.raises with
  | true => rfl
  | false =>
    dsimp only
    cases reconcile c (registerComponents sb.decls c) q with
    | ok q2 => rfl
    | keyError q2 => rfl

theorem handle_value_changed_ok (st : AppState) (sid component_key : String)
    (form_value query_value : Option String)
    (hval : (truthy form_value || truthy query_value) = true)
    (hkey : (keysOf (getSession st sid).components).contains component_key = true) :
    (handle_value_changed st sid component_key form_value query_value).2 = true
      ∧ (handle_value_changed st sid component_key form_value
          query_value).1.queue_user_script_rerun = true := by
  have hkey2 : component_key ∈ keysOf (getSession st sid).components := by
    simpa using hkey
  unfold handle_value_changed func_for_component_value_changed
  simp [hval, hkey2, ValueChangedOutcome.rerunOf]

/-- C10: the "rerun needed" flag is one attribute of the process-wide
application object, not per-session state. Starting from a cleared flag, a
non-root request from any session runs no script; after one visitor's
successful value change sets the flag, the very next non-root request — from
a different visitor's session — triggers a user-script rerun, which clears
the flag again. One session's value change is thereby observable in another
session's request processing. -/
theorem rerun_flag_process_wide
    (st : AppState) (s1 s2 component_key v : String) (sb : ScriptBehavior)
    (h12 : s1 ≠ s2)
    (hflag : st.queue_user_script_rerun = false)
    (hkey : (keysOf (getSession st s1).components).contains component_key = true)
    (hv : truthy (some v) = true) :
    (evaluate_user_code_middleware st s2 false sb).2 = false
      ∧ (handle_value_changed st s1 component_key (some v) none).2 = true
      ∧ (handle_value_changed st s1 component_key
          (some v) none).1.queue_user_script_rerun = true
      ∧ (evaluate_user_code_middleware
          (handle_value_changed st s1 component_key (some v) none).1 s2 false sb).2
        = true
      ∧ (evaluate_user_code_middleware
          (handle_value_changed st s1 component_key (some v) none).1 s2 false
          sb).1.queue_user_script_rerun
        = false := by
  have hval : (truthy (some v) || truthy none) = true := by simp [hv]
  obtain ⟨hok, hfl⟩ := handle_value_changed_ok st s1 component_key (some v) none
    hval hkey
  refine ⟨?_, hok, hfl, ?_, ?_⟩
  · simp [evaluate_user_code_middleware, hflag]
  · simp [evaluate_user_code_middleware, hfl]
  · simp [evaluate_user_code_middleware, hfl, applyRun,
      run_user_script_clears_rerun]

theorem rerun_flag_process_wide_witness :
    (evaluate_user_code_middleware
        (AppState.mk false [("alice", SessionData.mk [("k", [("label", "x")])] ∅)])
        "bob" false (ScriptBehavior.mk [] false)).2 = false
      ∧ (handle_value_changed
          (AppState.mk false [("alice", SessionData.mk [("k", [("label", "x")])] ∅)])
          "alice" "k" (some "1") none).2 = true
      ∧ (handle_value_changed
          (AppState.mk false [("alice", SessionData.mk [("k", [("label", "x")])] ∅)])
          "alice" "k" (some "1") none).1.queue_user_script_rerun = true
      ∧ (evaluate_user_code_middleware
          (handle_value_changed
            (AppState.mk false
              [("alice", SessionData.mk [("k", [("label", "x")])] ∅)])
            "alice" "k" (some "1") none).1
          "bob" false (ScriptBehavior.mk [] false)).2 = true
      ∧ (evaluate_user_code_middleware
          (handle_value_changed
            (AppState.mk false
              [("alice", SessionData.mk [("k", [("label", "x")])] ∅)])
            "alice" "k" (some "1") none).1
          "bob" false (ScriptBehavior.mk [] false)).1.queue_user_script_rerun
        = false :=
  rerun_flag_process_wide
    (AppState.mk false [("alice", SessionData.mk [("k", [("label", "x")])] ∅)])
    "alice" "bob" "k" "1" (ScriptBehavior.mk [] false)
    (by decide) rfl (by decide) (by decide)

/-- Scenario A of §8: the empty-to-empty transition enqueues nothing. -/
theorem reconcile_empty_to_empty : reconcile [] [] ∅ = .ok ∅ := by decide
